import Mathlib

/-!
Verification development for the `twitpred` pipeline.

We give a shallow embedding of the scoring pipeline of `twitpred`
(`twitpred/multiprocessor.py`, `twitpred/processor.py`,
`twitpred/generator.py`) and prove the behavioural properties stated in
the design document.

Conventions of the embedding:
* A `Tweet` is the namedtuple `(id, created_at, full_text)` of
  `generator.py`, with `id` and `created_at` abstracted to `Nat`.
* Scores are an arbitrary type `S`, and the two scoring capabilities of
  `TweetPredictor` are parameters: `p : String → S` embeds
  `predict(text)` and `bp : List String → List S` embeds
  `batch_predict(texts)` (it may return a list of any length, which is
  what the `assert` in the source guards against).
* `multiprocessing.Queue` is unordered across producers but FIFO for a
  single producer/consumer pair; a worker's run is therefore embedded as
  a function of the list of items that this worker dequeues, in dequeue
  order, and the sequence of values it `put`s on the output queue, in
  order.  Python exceptions are embedded with `Option`/explicit failure
  flags.
-/

/-- The `Tweet` namedtuple of `generator.py`: `(id, created_at, full_text)`. -/
structure Tweet where
  id : Nat
  created_at : Nat
  full_text : String
deriving DecidableEq, Repr

/-- A tweepy `Status` as far as `Tweet.from_status` inspects it: the three
text locations may each be absent (absence = the `AttributeError` that the
source catches). -/
structure Status where
  id : Nat
  created_at : Nat
  full_text : Option String
  extended_tweet_full_text : Option String
  text : Option String
deriving DecidableEq, Repr

/-- The ordered list of text-extraction strategies
`Tweet._status_text_getters` of `generator.py`: `status.full_text`, then
`status.extended_tweet["full_text"]`, then `status.text`. -/
def status_text_getters : List (Status → Option String) :=
  [fun s => s.full_text, fun s => s.extended_tweet_full_text, fun s => s.text]

/-- The loop body of `Tweet.from_status`: try each getter in order; a getter
returning `none` is the caught `AttributeError`; success builds the Tweet
from `status.id`, `status.created_at` and the extracted text. -/
def from_status_go (s : Status) : List (Status → Option String) → Option Tweet
  | [] => none
  | g :: gs =>
    match g s with
    | some txt => some ⟨s.id, s.created_at, txt⟩
    | none => from_status_go s gs

/-- Definition `Tweet.from_status` of `generator.py`.  `none` embeds the
`AssertionError` raised when every getter has failed. -/
def from_status (s : Status) : Option Tweet :=
  from_status_go s status_text_getters

/-- Method `TweetPredictorConsumerProducer._batch_predict`: score the texts of the
accumulated batch with the batched capability; the `assert` that the
prediction list has the same length as the batch is embedded as `none`;
on success the result is `zip(tweets, predictions)`. -/
def batch_predict {S : Type} (bp : List String → List S) (batch : List Tweet) :
    Option (List (Tweet × S)) :=
  let predictions := bp (batch.map Tweet.full_text)
  if predictions.length = batch.length then some (batch.zip predictions) else none

/-- Result of the input-consuming loop of `ConsumerProducer._run` for a
predictor worker: the batches handed to the scoring capability (a
singleton per `predict` call when `B = 1`), the `(tweet, prediction)`
pairs put on the output queue, whether the `assert` fired (aborting the
loop), and the final state of the accumulator `self._batch`. -/
structure LoopResult (S : Type) where
  calls : List (List Tweet)
  outputs : List (Tweet × S)
  failed : Bool
  batch : List Tweet
deriving DecidableEq, Repr

/-- The `for input in iter(self._input_queue.get, None)` loop of
`ConsumerProducer._run`, specialised to
`TweetPredictorConsumerProducer._consume`: `ts` are the items this worker
dequeues before the sentinel, `batch` is the accumulator.  With `B > 1`,
a full accumulator is flushed through `_batch_predict` when the next item
arrives (the arriving item is appended only after the flush and the
`clear`); an `assert` failure aborts the loop with the accumulator left
unchanged.  With `B ≤ 1` every item is scored individually. -/
def runLoop {S : Type} (B : Nat) (p : String → S) (bp : List String → List S) :
    List Tweet → List Tweet → LoopResult S
  | [], batch => ⟨[], [], false, batch⟩
  | t :: ts, batch =>
    if B > 1 then
      if batch.length = B then
        match batch_predict bp batch with
        | some outs =>
          let r := runLoop B p bp ts [t]
          ⟨batch :: r.calls, outs ++ r.outputs, r.failed, r.batch⟩
        | none => ⟨[batch], [], true, batch⟩
      else
        runLoop B p bp ts (batch ++ [t])
    else
      let r := runLoop B p bp ts batch
      ⟨[t] :: r.calls, (t, p t.full_text) :: r.outputs, r.failed, r.batch⟩

/-- The flush in `TweetPredictorConsumerProducer.__exit__`: a non-empty
accumulator is scored with the same `_batch_predict` call and the pairs
are put on the output queue; a failing `assert` there produces nothing. -/
def exitFlush {S : Type} (bp : List String → List S) (batch : List Tweet) :
    List (List Tweet) × List (Tweet × S) × Bool :=
  if batch.isEmpty then ([], [], false)
  else
    match batch_predict bp batch with
    | some outs => ([batch], outs, false)
    | none => ([batch], [], true)

/-- Observable behaviour of one predictor worker's whole run: scoring
calls made, outputs enqueued, and whether it died with an assertion
error. -/
structure RunResult (S : Type) where
  calls : List (List Tweet)
  outputs : List (Tweet × S)
  failed : Bool
deriving DecidableEq, Repr

/-- A full run of `TweetPredictorConsumerProducer._run` on the items
`inputs` this worker dequeues: the consuming loop inside `with self:`
followed by `__exit__`.  Note that `__exit__` runs (and flushes a
non-empty accumulator) also when the loop was aborted by the `assert`,
because `with` invokes it on the exception path as well. -/
def workerRun {S : Type} (B : Nat) (p : String → S) (bp : List String → List S)
    (inputs : List Tweet) : RunResult S :=
  let l := runLoop B p bp inputs []
  let e := exitFlush bp l.batch
  ⟨l.calls ++ e.1, l.outputs ++ e.2.1, l.failed || e.2.2⟩

/-- Function `iter_predictions` of `processor.py`: score each tweet individually,
yielding `(tweet, prediction)` pairs in input order. -/
def iter_predictions {S : Type} (p : String → S) (tweets : List Tweet) :
    List (Tweet × S) :=
  tweets.map fun t => (t, p t.full_text)

/-- Function `iter_batches` of `processor.py`: split the input into consecutive
lists of `batch_size` elements, the last possibly shorter.  The
`iter(lambda: list(islice(iterator, batch_size)), [])` idiom stops as
soon as a drawn chunk is empty, so `batch_size = 0` yields no batches. -/
def iter_batches {α : Type} (B : Nat) (l : List α) : List (List α) :=
  if hB : B = 0 then []
  else if hl : l.isEmpty then []
  else l.take B :: iter_batches B (l.drop B)
termination_by l.length
decreasing_by
  simp only [List.isEmpty_iff] at hl
  simp only [List.length_drop]
  have hlen : l.length ≠ 0 := fun hh => hl (List.length_eq_zero.mp hh)
  omega

/-- The loop body of `iter_batch_predictions` of `processor.py`, folded
over the list of batches: each batch's texts go to `batch_predict`, the
`assert` is the same length check, and the pairs are yielded in batch
index order. -/
def iter_batch_predictions_go {S : Type} (bp : List String → List S) :
    List (List Tweet) → Option (List (Tweet × S))
  | [] => some []
  | b :: bs =>
    match batch_predict bp b with
    | some outs => (iter_batch_predictions_go bp bs).map fun rest => outs ++ rest
    | none => none

/-- Function `iter_batch_predictions` of `processor.py`. -/
def iter_batch_predictions {S : Type} (bp : List String → List S) (B : Nat)
    (tweets : List Tweet) : Option (List (Tweet × S)) :=
  iter_batch_predictions_go bp (iter_batches B tweets)

/-- A row of the output CSV file: the header
`("tweet_id", "created_at", "full_text", "sentiment")` or one data row
`(*tweet, prediction)`. -/
inductive Row (S : Type) where
  | header
  | data (tweet : Tweet) (score : S)
deriving DecidableEq, Repr

/-- Function `process_tweets` of `processor.py` (the sequential path), returning
the list of rows written to the output file; `none` embeds the
`AssertionError` escaping from `iter_batch_predictions`. -/
def process_tweets {S : Type} (p : String → S) (bp : List String → List S)
    (B : Nat) (tweets : List Tweet) : Option (List (Row S)) :=
  let preds :=
    if B > 1 then iter_batch_predictions bp B tweets
    else some (iter_predictions p tweets)
  preds.map fun l => Row.header :: l.map fun ts => Row.data ts.1 ts.2

/-- Events observable on the sink file of `CsvWriterConsumer`. -/
inductive WEvent (S : Type) where
  | openSink
  | writeRow (r : Row S)
  | closeSink
deriving DecidableEq, Repr

/-- The consuming loop of `CsvWriterConsumer._run`: each dequeued
`(tweet, prediction)` pair is written with `writerow((*tweet, prediction))`.
`fails r = true` embeds a raising `writerow`; the exception is not
caught, so the loop stops there with nothing further written. -/
def writerConsumeRows {S : Type} (fails : Row S → Bool) :
    List (Tweet × S) → List (WEvent S) × Bool
  | [] => ([], false)
  | ts :: rest =>
    if fails (Row.data ts.1 ts.2) then ([], true)
    else
      let r := writerConsumeRows fails rest
      (WEvent.writeRow (Row.data ts.1 ts.2) :: r.1, r.2)

/-- A full run of `CsvWriterConsumer._run` on the results it dequeues:
`__enter__` opens the file and writes the header row, the loop writes
one data row per result, and `__exit__` closes the file — also on the
exception path, because `with self:` runs it there too. -/
def writerEvents {S : Type} (fails : Row S → Bool) (results : List (Tweet × S)) :
    List (WEvent S) × Bool :=
  let r := writerConsumeRows fails results
  (WEvent.openSink :: WEvent.writeRow Row.header :: (r.1 ++ [WEvent.closeSink]), r.2)

/-- The row recorded by a sink event, if any. -/
def rowOfEvent {S : Type} : WEvent S → Option (Row S)
  | WEvent.writeRow r => some r
  | _ => none

/-- The rows actually written to the sink during a writer run. -/
def writtenRows {S : Type} (fails : Row S → Bool) (results : List (Tweet × S)) :
    List (Row S) :=
  (writerEvents fails results).1.filterMap rowOfEvent

/-! ## Reference chunking of the worker's accumulate-then-flush loop -/

/-- Reference recursion extracting just the accumulator discipline of the
worker loop: which batches get flushed, and what remains accumulated. -/
def chunkAcc {α : Type} (B : Nat) : List α → List α → List (List α) × List α
  | [], b => ([], b)
  | t :: ts, b =>
    if b.length = B then
      let r := chunkAcc B ts [t]
      (b :: r.1, r.2)
    else chunkAcc B ts (b ++ [t])

theorem runLoop_eq_chunkAcc {S : Type} (B : Nat) (p : String → S)
    (bp : List String → List S) (hB : 1 < B)
    (hbp : ∀ l, (bp l).length = l.length) :
    ∀ (ts b : List Tweet),
      runLoop B p bp ts b =
        ⟨(chunkAcc B ts b).1,
         ((chunkAcc B ts b).1.map fun c => c.zip (bp (c.map Tweet.full_text))).flatten,
         false, (chunkAcc B ts b).2⟩ := by
  intro ts
  induction ts with
  | nil => intro b; simp [runLoop, chunkAcc]
  | cons t ts ih =>
    intro b
    by_cases hb : b.length = B
    · have hsome : batch_predict bp b = some (b.zip (bp (b.map Tweet.full_text))) := by
        simp [batch_predict, hbp]
      simp [runLoop, chunkAcc, hb, hB, hsome, ih]
    · simp [runLoop, chunkAcc, hb, hB, ih]

theorem chunkAcc_join {α : Type} (B : Nat) :
    ∀ (ts b : List α),
      ((chunkAcc B ts b).1).flatten ++ (chunkAcc B ts b).2 = b ++ ts := by
  intro ts
  induction ts with
  | nil => intro b; simp [chunkAcc]
  | cons t ts ih =>
    intro b
    by_cases hb : b.length = B
    · simp only [chunkAcc, hb, if_true, List.flatten_cons, List.append_assoc, ih]
      simp
    · simp only [chunkAcc, hb, if_false, ih]
      simp

theorem chunkAcc_calls_length {α : Type} (B : Nat) :
    ∀ (ts b : List α) (c : List α), c ∈ (chunkAcc B ts b).1 → c.length = B := by
  intro ts
  induction ts with
  | nil => intro b c hc; simp [chunkAcc] at hc
  | cons t ts ih =>
    intro b c hc
    by_cases hb : b.length = B
    · simp only [chunkAcc, hb, if_true, List.mem_cons] at hc
      rcases hc with rfl | hc
      · exact hb
      · exact ih [t] c hc
    · simp only [chunkAcc, hb, if_false] at hc
      exact ih (b ++ [t]) c hc

theorem chunkAcc_rem_le {α : Type} (B : Nat) (hB : 0 < B) :
    ∀ (ts b : List α), b.length ≤ B → (chunkAcc B ts b).2.length ≤ B := by
  intro ts
  induction ts with
  | nil => intro b hb; simpa [chunkAcc] using hb
  | cons t ts ih =>
    intro b hb
    by_cases heq : b.length = B
    · simp only [chunkAcc, heq, if_true]
      exact ih [t] (by simpa using hB)
    · simp only [chunkAcc, heq, if_false]
      exact ih (b ++ [t]) (by simp; omega)

theorem chunkAcc_rem_ne_nil {α : Type} (B : Nat) :
    ∀ (ts b : List α), b ≠ [] ∨ ts ≠ [] → (chunkAcc B ts b).2 ≠ [] := by
  intro ts
  induction ts with
  | nil =>
    intro b hb
    rcases hb with hb | hb
    · simpa [chunkAcc] using hb
    · simp at hb
  | cons t ts ih =>
    intro b _
    by_cases heq : b.length = B
    · simp only [chunkAcc, heq, if_true]
      exact ih [t] (Or.inl (by simp))
    · simp only [chunkAcc, heq, if_false]
      exact ih (b ++ [t]) (Or.inl (by simp))

theorem iter_batches_nil {α : Type} (B : Nat) : iter_batches B ([] : List α) = [] := by
  rw [iter_batches]
  simp

theorem iter_batches_cons {α : Type} (B : Nat) (l : List α) (hB : B ≠ 0)
    (hl : l ≠ []) :
    iter_batches B l = l.take B :: iter_batches B (l.drop B) := by
  rw [iter_batches]
  simp [hB, hl]


/-- The drain flush as a list of batches: nothing when the accumulator is
empty, the single remaining batch otherwise. -/
def remBatches {α : Type} (r : List α) : List (List α) :=
  if r.isEmpty then [] else [r]

theorem chunkAcc_eq_iter_batches {α : Type} (B : Nat) (hB : B ≠ 0) :
    ∀ (ts b : List α), b.length ≤ B →
      (chunkAcc B ts b).1 ++ remBatches (chunkAcc B ts b).2 =
        iter_batches B (b ++ ts) := by
  intro ts
  induction ts with
  | nil =>
    intro b hb
    by_cases hbe : b = []
    · simp [chunkAcc, hbe, remBatches, iter_batches_nil]
    · rw [List.append_nil]
      rw [iter_batches_cons B b hB hbe]
      have ht : b.take B = b := List.take_of_length_le hb
      have hd : b.drop B = [] := List.drop_eq_nil_of_le hb
      simp [chunkAcc, remBatches, hbe, ht, hd, iter_batches_nil]
  | cons t ts ih =>
    intro b hb
    by_cases heq : b.length = B
    · have hbe : b ≠ [] := by
        intro h
        rw [h] at heq
        exact hB heq.symm
      have htake : (b ++ t :: ts).take B = b := by
        rw [← heq]
        exact List.take_left b (t :: ts)
      have hdrop : (b ++ t :: ts).drop B = t :: ts := by
        rw [← heq]
        exact List.drop_left b (t :: ts)
      rw [iter_batches_cons B (b ++ t :: ts) hB (by simp [hbe])]
      rw [htake, hdrop]
      simp only [chunkAcc, heq, if_true, List.cons_append]
      have h1 := ih [t] (by simp; omega)
      simp only [List.singleton_append] at h1
      rw [h1]
    · simp only [chunkAcc, heq, if_false]
      have h1 := ih (b ++ [t]) (by simp; omega)
      rw [h1]
      simp

theorem workerRun_eq_batches {S : Type} (B : Nat) (p : String → S)
    (bp : List String → List S) (hB : 1 < B)
    (hbp : ∀ l, (bp l).length = l.length) (inputs : List Tweet) :
    workerRun B p bp inputs =
      ⟨iter_batches B inputs,
       ((iter_batches B inputs).map fun c =>
         c.zip (bp (c.map Tweet.full_text))).flatten,
       false⟩ := by
  have hiter := chunkAcc_eq_iter_batches B (by omega) inputs [] (by simp)
  simp only [List.nil_append] at hiter
  unfold workerRun
  rw [runLoop_eq_chunkAcc B p bp hB hbp]
  by_cases hrem : (chunkAcc B inputs []).2 = []
  · rw [hrem] at hiter
    simp only [remBatches, List.isEmpty_nil, if_true, List.append_nil] at hiter
    simp [exitFlush, hrem, ← hiter]
  · rw [show remBatches (chunkAcc B inputs []).2 = [(chunkAcc B inputs []).2] by
      simp [remBatches, List.isEmpty_iff, hrem]] at hiter
    have hsome : batch_predict bp (chunkAcc B inputs []).2 =
        some ((chunkAcc B inputs []).2.zip
          (bp ((chunkAcc B inputs []).2.map Tweet.full_text))) := by
      simp [batch_predict, hbp]
    simp [exitFlush, List.isEmpty_iff, hrem, hsome, ← hiter]

theorem iter_batch_predictions_go_eq {S : Type} (bp : List String → List S)
    (hbp : ∀ l, (bp l).length = l.length) (bs : List (List Tweet)) :
    iter_batch_predictions_go bp bs =
      some ((bs.map fun c => c.zip (bp (c.map Tweet.full_text))).flatten) := by
  induction bs with
  | nil => simp [iter_batch_predictions_go]
  | cons b bs ih =>
    have hsome : batch_predict bp b = some (b.zip (bp (b.map Tweet.full_text))) := by
      simp [batch_predict, hbp]
    simp [iter_batch_predictions_go, hsome, ih]

theorem iter_batches_flatten {α : Type} (B : Nat) (hB : B ≠ 0) (l : List α) :
    (iter_batches B l).flatten = l := by
  have h := chunkAcc_eq_iter_batches B hB l [] (by simp)
  simp only [List.nil_append] at h
  have hj := chunkAcc_join B l []
  simp only [List.nil_append] at hj
  rw [← h]
  by_cases hrem : (chunkAcc B l []).2 = []
  · rw [hrem] at hj ⊢
    simpa [remBatches] using hj
  · rw [show remBatches (chunkAcc B l []).2 = [(chunkAcc B l []).2] by
      simp [remBatches, List.isEmpty_iff, hrem]]
    simpa [List.flatten_append] using hj

theorem iter_batches_mem {α : Type} (B : Nat) (hB : B ≠ 0) (l : List α)
    (c : List α) (hc : c ∈ iter_batches B l) : c ≠ [] ∧ c.length ≤ B := by
  have h := chunkAcc_eq_iter_batches B hB l [] (by simp)
  simp only [List.nil_append] at h
  rw [← h] at hc
  rcases List.mem_append.mp hc with hc | hc
  · have := chunkAcc_calls_length B l [] c hc
    constructor
    · intro hcnil
      rw [hcnil] at this
      exact hB this.symm
    · omega
  · have hrem : c = (chunkAcc B l []).2 ∧ (chunkAcc B l []).2 ≠ [] := by
      by_cases hr : ((chunkAcc B l []).2).isEmpty
      · simp [remBatches, hr] at hc
      · rw [show remBatches (chunkAcc B l []).2 = [(chunkAcc B l []).2] by
          simp [remBatches, hr]] at hc
        exact ⟨List.mem_singleton.mp hc, by simpa [List.isEmpty_iff] using hr⟩
    rcases hrem with ⟨rfl, hne⟩
    exact ⟨hne, chunkAcc_rem_le B (by omega) l [] (by simp)⟩

theorem iter_batches_dropLast {α : Type} (B : Nat) (hB : B ≠ 0) (l : List α)
    (c : List α) (hc : c ∈ (iter_batches B l).dropLast) : c.length = B := by
  have h := chunkAcc_eq_iter_batches B hB l [] (by simp)
  simp only [List.nil_append] at h
  rw [← h] at hc
  by_cases hrem : ((chunkAcc B l []).2).isEmpty
  · simp only [remBatches, hrem, if_true, List.append_nil] at hc
    exact chunkAcc_calls_length B l [] c ((List.dropLast_sublist _).mem hc)
  · rw [show remBatches (chunkAcc B l []).2 = [(chunkAcc B l []).2] by
      simp [remBatches, hrem]] at hc
    rw [List.dropLast_concat] at hc
    exact chunkAcc_calls_length B l [] c hc

theorem runLoop_single {S : Type} (B : Nat) (p : String → S)
    (bp : List String → List S) (hB : ¬ 1 < B) :
    ∀ (ts b : List Tweet),
      runLoop B p bp ts b = ⟨ts.map fun t => [t], iter_predictions p ts, false, b⟩ := by
  intro ts
  induction ts with
  | nil => intro b; simp [runLoop, iter_predictions]
  | cons t ts ih => intro b; simp [runLoop, hB, ih, iter_predictions]

theorem workerRun_single {S : Type} (B : Nat) (p : String → S)
    (bp : List String → List S) (hB : ¬ 1 < B) (inputs : List Tweet) :
    workerRun B p bp inputs =
      ⟨inputs.map fun t => [t], iter_predictions p inputs, false⟩ := by
  unfold workerRun
  rw [runLoop_single B p bp hB]
  simp [exitFlush]

theorem zip_map_self {α β : Type} (g : α → β) :
    ∀ (l : List α), l.zip (l.map g) = l.map fun x => (x, g x)
  | [] => rfl
  | x :: xs => by simp [zip_map_self g xs]

theorem workerRun_outputs_of_consistent {S : Type} (B : Nat) (p : String → S)
    (bp : List String → List S) (hbp : ∀ l, bp l = l.map p) (inputs : List Tweet) :
    (workerRun B p bp inputs).outputs = iter_predictions p inputs ∧
    (workerRun B p bp inputs).failed = false := by
  by_cases hB : 1 < B
  · have hlen : ∀ l, (bp l).length = l.length := by intro l; simp [hbp]
    rw [workerRun_eq_batches B p bp hB hlen]
    refine ⟨?_, rfl⟩
    show ((iter_batches B inputs).map fun c =>
        c.zip (bp (c.map Tweet.full_text))).flatten = iter_predictions p inputs
    have hz : ∀ c : List Tweet,
        c.zip (bp (c.map Tweet.full_text)) = c.map fun t => (t, p t.full_text) := by
      intro c
      rw [hbp, List.map_map, zip_map_self]
      rfl
    calc ((iter_batches B inputs).map fun c =>
            c.zip (bp (c.map Tweet.full_text))).flatten
        = ((iter_batches B inputs).map fun c =>
            c.map fun t => (t, p t.full_text)).flatten := by
          simp only [hz]
      _ = ((iter_batches B inputs).flatten).map fun t => (t, p t.full_text) := by
          rw [List.map_flatten]
      _ = iter_predictions p inputs := by
          rw [iter_batches_flatten B (by omega) inputs]
          rfl
  · rw [workerRun_single B p bp hB]
    exact ⟨rfl, rfl⟩

/-! ## N workers sharing the input queue -/

/-- The work queue delivers each item to exactly one of the `N` workers,
preserving per-worker relative order: a schedule assigns a worker to each
input position, and `workerInputs` is the subsequence of `inputs` that
worker `w` dequeues. -/
def workerInputs {N : Nat} (sched : List (Fin N)) (inputs : List Tweet)
    (w : Fin N) : List Tweet :=
  ((sched.zip inputs).filter fun a => a.1 == w).map Prod.snd

theorem workerInputs_cons {N : Nat} (i : Fin N) (sched : List (Fin N))
    (t : Tweet) (inputs : List Tweet) (w : Fin N) :
    workerInputs (i :: sched) (t :: inputs) w =
      if i = w then t :: workerInputs sched inputs w
      else workerInputs sched inputs w := by
  by_cases h : i = w <;> simp [workerInputs, h]

theorem sum_workerInputs_map {N : Nat} {γ : Type} (f : Tweet → γ) :
    ∀ (sched : List (Fin N)) (inputs : List Tweet),
      sched.length = inputs.length →
      (∑ w : Fin N, Multiset.ofList ((workerInputs sched inputs w).map f)) =
        Multiset.ofList (inputs.map f) := by
  intro sched
  induction sched with
  | nil =>
    intro inputs h
    cases inputs with
    | nil => simp [workerInputs]
    | cons t ts => simp at h
  | cons i sched ih =>
    intro inputs h
    cases inputs with
    | nil => simp at h
    | cons t ts =>
      have hlen : sched.length = ts.length := by simpa using h
      have hstep : ∀ w : Fin N,
          Multiset.ofList ((workerInputs (i :: sched) (t :: ts) w).map f) =
            (if i = w then ({f t} : Multiset γ) else 0) +
              Multiset.ofList ((workerInputs sched ts w).map f) := by
        intro w
        rw [workerInputs_cons]
        by_cases hw : i = w
        · simp [hw]
        · simp [hw]
      calc (∑ w : Fin N, Multiset.ofList ((workerInputs (i :: sched) (t :: ts) w).map f))
          = ∑ w : Fin N, ((if i = w then ({f t} : Multiset γ) else 0) +
              Multiset.ofList ((workerInputs sched ts w).map f)) := by
            exact Finset.sum_congr rfl fun w _ => hstep w
        _ = (∑ w : Fin N, if i = w then ({f t} : Multiset γ) else 0) +
              ∑ w : Fin N, Multiset.ofList ((workerInputs sched ts w).map f) := by
            rw [Finset.sum_add_distrib]
        _ = {f t} + Multiset.ofList (ts.map f) := by
            rw [ih ts hlen, Finset.sum_ite_eq]
            simp
        _ = Multiset.ofList ((t :: ts).map f) := by
            simp

/-! ## Orchestrator shutdown ordering -/

/-- The orchestration actions performed by `multiprocess_tweets`, in
program order. -/
inductive OEvent where
  | putItem (t : Tweet)
  | stopWorker (i : Nat)
  | joinWorker (i : Nat)
  | stopWriter
  | joinWriter
deriving DecidableEq, Repr

/-- Method `ConsumerProducer.stop(block)`: put exactly one sentinel on the input
queue (the `signal` action), then `join()` only when `block` is true. -/
def stop_events (signal joinEv : OEvent) (block : Bool) : List OEvent :=
  signal :: if block then [joinEv] else []

/-- The action trace of `multiprocess_tweets`: push every input item,
then `stop(block=False)` each predictor, then `join()` each predictor,
then `writer.stop()` (whose default is `block=True`). -/
def multiprocess_tweets_trace (inputs : List Tweet) (N : Nat) : List OEvent :=
  inputs.map OEvent.putItem
    ++ ((List.range N).map fun i =>
        stop_events (OEvent.stopWorker i) (OEvent.joinWorker i) false).flatten
    ++ (List.range N).map OEvent.joinWorker
    ++ stop_events OEvent.stopWriter OEvent.joinWriter true

theorem multiprocess_tweets_trace_eq (inputs : List Tweet) (N : Nat) :
    multiprocess_tweets_trace inputs N =
      inputs.map OEvent.putItem
        ++ (List.range N).map OEvent.stopWorker
        ++ (List.range N).map OEvent.joinWorker
        ++ [OEvent.stopWriter, OEvent.joinWriter] := by
  have hsingle : ∀ (l : List Nat) (f : Nat → OEvent),
      (l.map fun a => [f a]).flatten = l.map f := by
    intro l f
    induction l with
    | nil => rfl
    | cons a l ih => simp [ih]
  have h : ((List.range N).map fun i =>
      stop_events (OEvent.stopWorker i) (OEvent.joinWorker i) false).flatten =
      (List.range N).map OEvent.stopWorker := by
    simpa [stop_events] using hsingle (List.range N) OEvent.stopWorker
  unfold multiprocess_tweets_trace
  rw [h]
  simp [stop_events]

/-! ## Shutdown of an already-terminated worker -/

/-- One worker as the orchestrator's `stop`/`join` calls see it: the
contents of its input queue and whether its process has exited.
`multiprocessing.Queue` is unbounded here, so `put` always succeeds;
`Process.join` returns immediately when the process has already exited
(and otherwise blocks, embedded as `none` = the call does not return
now). -/
structure WorkerHandle where
  queue : List (Option Tweet)
  terminated : Bool
deriving DecidableEq, Repr

/-- Call `self._input_queue.put(None)` on the unbounded queue: total, never
raises. -/
def queue_put (q : List (Option Tweet)) (x : Option Tweet) : List (Option Tweet) :=
  q ++ [x]

/-- Method `ConsumerProducer.join`: `some` (the call returns, handle unchanged)
when the process has exited, `none` (the call blocks) otherwise. -/
def join_handle (w : WorkerHandle) : Option WorkerHandle :=
  if w.terminated then some w else none

/-- Method `ConsumerProducer.stop(block)`: enqueue one end-of-stream marker,
then join when `block` is true. -/
def stop_handle (w : WorkerHandle) (block : Bool) : Option WorkerHandle :=
  let w2 : WorkerHandle := ⟨queue_put w.queue none, w.terminated⟩
  if block then join_handle w2 else some w2

/-! ## Writer normal forms -/

/-- Is this sink event the open of the file (`__enter__`)? -/
def isOpenEv {S : Type} : WEvent S → Bool
  | WEvent.openSink => true
  | _ => false

/-- Is this sink event the close of the file (`__exit__`)? -/
def isCloseEv {S : Type} : WEvent S → Bool
  | WEvent.closeSink => true
  | _ => false

/-- Is this row the header row? -/
def isHeaderRow {S : Type} : Row S → Bool
  | Row.header => true
  | _ => false

theorem writerConsumeRows_eq {S : Type} (fails : Row S → Bool) :
    ∀ results : List (Tweet × S),
      writerConsumeRows fails results =
        ((results.takeWhile fun r => !fails (Row.data r.1 r.2)).map fun r =>
          WEvent.writeRow (Row.data r.1 r.2),
         results.any fun r => fails (Row.data r.1 r.2)) := by
  intro results
  induction results with
  | nil => rfl
  | cons r rest ih =>
    by_cases h : fails (Row.data r.1 r.2)
    · simp [writerConsumeRows, h, List.takeWhile_cons, List.any_cons]
    · simp [writerConsumeRows, h, List.takeWhile_cons, List.any_cons, ih]

theorem writerConsumeRows_fail {S : Type} (fails : Row S → Bool)
    (pre post : List (Tweet × S)) (bad : Tweet × S)
    (hpre : ∀ r ∈ pre, fails (Row.data r.1 r.2) = false)
    (hbad : fails (Row.data bad.1 bad.2) = true) :
    writerConsumeRows fails (pre ++ bad :: post) =
      (pre.map fun r => WEvent.writeRow (Row.data r.1 r.2), true) := by
  induction pre with
  | nil => simp [writerConsumeRows, hbad]
  | cons r pre ih =>
    have hr : fails (Row.data r.1 r.2) = false := hpre r (by simp)
    have hrest : ∀ x ∈ pre, fails (Row.data x.1 x.2) = false := fun x hx =>
      hpre x (by simp [hx])
    simp [writerConsumeRows, hr, ih hrest]

theorem trace_stopWorker_pos (inputs : List Tweet) (N i : Nat) (hi : i < N) :
    (multiprocess_tweets_trace inputs N)[inputs.length + i]? =
      some (OEvent.stopWorker i) := by
  rw [multiprocess_tweets_trace_eq, List.append_assoc, List.append_assoc]
  rw [List.getElem?_append_right (by simp)]
  have hidx : inputs.length + i - (inputs.map OEvent.putItem).length = i := by simp
  rw [hidx, List.getElem?_append_left (by simpa using hi), List.getElem?_map,
    List.getElem?_range hi]
  rfl

theorem trace_joinWorker_pos (inputs : List Tweet) (N j : Nat) (hj : j < N) :
    (multiprocess_tweets_trace inputs N)[inputs.length + N + j]? =
      some (OEvent.joinWorker j) := by
  rw [multiprocess_tweets_trace_eq, List.append_assoc, List.append_assoc]
  rw [List.getElem?_append_right (by simp; omega)]
  have hidx : inputs.length + N + j - (inputs.map OEvent.putItem).length = N + j := by
    simp
    omega
  rw [hidx, List.getElem?_append_right (by simp)]
  have hidx2 : N + j - ((List.range N).map OEvent.stopWorker).length = j := by simp
  rw [hidx2, List.getElem?_append_left (by simpa using hj), List.getElem?_map,
    List.getElem?_range hj]
  rfl

theorem trace_stopWriter_pos (inputs : List Tweet) (N : Nat) :
    (multiprocess_tweets_trace inputs N)[inputs.length + N + N]? =
      some OEvent.stopWriter := by
  rw [multiprocess_tweets_trace_eq, List.append_assoc, List.append_assoc]
  rw [List.getElem?_append_right (by simp; omega)]
  have hidx : inputs.length + N + N - (inputs.map OEvent.putItem).length = N + N := by
    simp
    omega
  rw [hidx, List.getElem?_append_right (by simp)]
  have hidx2 : N + N - ((List.range N).map OEvent.stopWorker).length = N := by simp
  rw [hidx2, List.getElem?_append_right (by simp)]
  simp

theorem trace_joinWriter_pos (inputs : List Tweet) (N : Nat) :
    (multiprocess_tweets_trace inputs N)[inputs.length + N + N + 1]? =
      some OEvent.joinWriter := by
  rw [multiprocess_tweets_trace_eq, List.append_assoc, List.append_assoc]
  rw [List.getElem?_append_right (by simp; omega)]
  have hidx : inputs.length + N + N + 1 - (inputs.map OEvent.putItem).length =
      N + N + 1 := by
    simp
    omega
  rw [hidx, List.getElem?_append_right (by simp; omega)]
  have hidx2 : N + N + 1 - ((List.range N).map OEvent.stopWorker).length = N + 1 := by
    simp
    omega
  rw [hidx2, List.getElem?_append_right (by simp)]
  simp

theorem trace_count_stopWorker (inputs : List Tweet) (N i : Nat) (hi : i < N) :
    (multiprocess_tweets_trace inputs N).count (OEvent.stopWorker i) = 1 := by
  rw [multiprocess_tweets_trace_eq]
  have hinj : Function.Injective OEvent.stopWorker := by
    intro a b h
    cases h
    rfl
  simp only [List.count_append]
  have h1 : (inputs.map OEvent.putItem).count (OEvent.stopWorker i) = 0 :=
    List.count_eq_zero.mpr (by simp)
  have h2 : ((List.range N).map OEvent.stopWorker).count (OEvent.stopWorker i) = 1 := by
    rw [List.count_map_of_injective _ OEvent.stopWorker hinj i]
    exact List.count_eq_one_of_mem (List.nodup_range N) (List.mem_range.mpr hi)
  have h3 : ((List.range N).map OEvent.joinWorker).count (OEvent.stopWorker i) = 0 :=
    List.count_eq_zero.mpr (by simp)
  have h4 : ([OEvent.stopWriter, OEvent.joinWriter]).count (OEvent.stopWorker i) = 0 :=
    List.count_eq_zero.mpr (by simp)
  rw [h1, h2, h3, h4]

theorem trace_count_joinWorker (inputs : List Tweet) (N j : Nat) (hj : j < N) :
    (multiprocess_tweets_trace inputs N).count (OEvent.joinWorker j) = 1 := by
  rw [multiprocess_tweets_trace_eq]
  have hinj : Function.Injective OEvent.joinWorker := by
    intro a b h
    cases h
    rfl
  simp only [List.count_append]
  have h1 : (inputs.map OEvent.putItem).count (OEvent.joinWorker j) = 0 :=
    List.count_eq_zero.mpr (by simp)
  have h2 : ((List.range N).map OEvent.stopWorker).count (OEvent.joinWorker j) = 0 :=
    List.count_eq_zero.mpr (by simp)
  have h3 : ((List.range N).map OEvent.joinWorker).count (OEvent.joinWorker j) = 1 := by
    rw [List.count_map_of_injective _ OEvent.joinWorker hinj j]
    exact List.count_eq_one_of_mem (List.nodup_range N) (List.mem_range.mpr hj)
  have h4 : ([OEvent.stopWriter, OEvent.joinWriter]).count (OEvent.joinWorker j) = 0 :=
    List.count_eq_zero.mpr (by simp)
  rw [h1, h2, h3, h4]

theorem trace_count_stopWriter (inputs : List Tweet) (N : Nat) :
    (multiprocess_tweets_trace inputs N).count OEvent.stopWriter = 1 := by
  rw [multiprocess_tweets_trace_eq]
  simp only [List.count_append]
  rw [List.count_eq_zero.mpr (by simp), List.count_eq_zero.mpr (by simp),
    List.count_eq_zero.mpr (by simp)]
  rfl

theorem trace_count_joinWriter (inputs : List Tweet) (N : Nat) :
    (multiprocess_tweets_trace inputs N).count OEvent.joinWriter = 1 := by
  rw [multiprocess_tweets_trace_eq]
  simp only [List.count_append]
  rw [List.count_eq_zero.mpr (by simp), List.count_eq_zero.mpr (by simp),
    List.count_eq_zero.mpr (by simp)]
  rfl

/-! ## Claim theorems -/

/-- C1: for a single scoring worker with batch size `B > 1` and a
well-behaved batched scorer, on any finite input sequence: the worker
never fails; every input item is scored exactly once (the flushed
batches concatenate back to the input); every flush performed while
items were still arriving (every batch but the last) contains exactly
`B` items; every flushed batch, the final drain flush included, is
non-empty and has at most `B` items; flushed pairs are forwarded in
batch index order (`zip` of the batch with its scores); and the
just-arrived item that triggers a flush is not part of the flushed
accumulator — it becomes the sole content of the next accumulator. -/
theorem worker_batching_discipline {S : Type} (B : Nat) (p : String → S)
    (bp : List String → List S) (hB : 1 < B)
    (hbp : ∀ l, (bp l).length = l.length) (inputs : List Tweet) :
    (workerRun B p bp inputs).failed = false ∧
    ((workerRun B p bp inputs).calls).flatten = inputs ∧
    (∀ c ∈ ((workerRun B p bp inputs).calls).dropLast, c.length = B) ∧
    (∀ c ∈ (workerRun B p bp inputs).calls, c ≠ [] ∧ c.length ≤ B) ∧
    (workerRun B p bp inputs).outputs =
      (((workerRun B p bp inputs).calls).map fun c =>
        c.zip (bp (c.map Tweet.full_text))).flatten ∧
    (∀ (t : Tweet) (ts b : List Tweet), b.length = B →
      runLoop B p bp (t :: ts) b =
        ⟨b :: (runLoop B p bp ts [t]).calls,
         b.zip (bp (b.map Tweet.full_text)) ++ (runLoop B p bp ts [t]).outputs,
         (runLoop B p bp ts [t]).failed, (runLoop B p bp ts [t]).batch⟩) := by
  have hB0 : B ≠ 0 := by omega
  rw [workerRun_eq_batches B p bp hB hbp]
  refine ⟨rfl, iter_batches_flatten B hB0 inputs, ?_, ?_, rfl, ?_⟩
  · intro c hc
    exact iter_batches_dropLast B hB0 inputs c hc
  · intro c hc
    exact iter_batches_mem B hB0 inputs c hc
  · intro t ts b hb
    have hsome : batch_predict bp b = some (b.zip (bp (b.map Tweet.full_text))) := by
      simp [batch_predict, hbp]
    simp [runLoop, hB, hb, hsome]

/-- Concrete input fixture: the design document's 7-item scenario. -/
def sampleTweets : List Tweet :=
  [⟨1, 1, "a"⟩, ⟨2, 2, "bb"⟩, ⟨3, 3, "ccc"⟩, ⟨4, 4, "d"⟩,
   ⟨5, 5, "ee"⟩, ⟨6, 6, "fff"⟩, ⟨7, 7, "g"⟩]

/-- Witness for `worker_batching_discipline`: 7 items, batch size 3. -/
theorem worker_batching_discipline_witness :
    (workerRun 3 String.length (fun l => l.map String.length) sampleTweets).failed
        = false ∧
    ((workerRun 3 String.length (fun l => l.map String.length)
        sampleTweets).calls).flatten = sampleTweets := by
  have h := worker_batching_discipline 3 String.length
    (fun l => l.map String.length) (by decide) (fun l => by simp) sampleTweets
  exact ⟨h.1, h.2.1⟩

/-- C10: for batch size `B > 1` and a batched scorer returning
same-length results, the eager chunking of the sequential path
(`iter_batches`) and the worker's lazy accumulate-then-flush logic
partition the input into the identical sequence of batches, and the two
paths produce the same `(item, score)` pairs in the same order. -/
theorem lazy_eager_batching_agree {S : Type} (B : Nat) (p : String → S)
    (bp : List String → List S) (hB : 1 < B)
    (hbp : ∀ l, (bp l).length = l.length) (inputs : List Tweet) :
    (workerRun B p bp inputs).calls = iter_batches B inputs ∧
    iter_batch_predictions bp B inputs = some ((workerRun B p bp inputs).outputs) ∧
    (workerRun B p bp inputs).failed = false := by
  rw [workerRun_eq_batches B p bp hB hbp]
  refine ⟨rfl, ?_, rfl⟩
  rw [iter_batch_predictions, iter_batch_predictions_go_eq bp hbp]

/-- Witness for `lazy_eager_batching_agree`: 7 items, batch size 2. -/
theorem lazy_eager_batching_agree_witness :
    (workerRun 2 String.length (fun l => l.map String.length)
        sampleTweets).calls = iter_batches 2 sampleTweets ∧
    iter_batch_predictions (fun l => l.map String.length) 2 sampleTweets =
      some ((workerRun 2 String.length (fun l => l.map String.length)
        sampleTweets).outputs) := by
  have h := lazy_eager_batching_agree 2 String.length
    (fun l => l.map String.length) (by decide) (fun l => by simp) sampleTweets
  exact ⟨h.1, h.2.1⟩

theorem writtenRows_no_fail {S : Type} (results : List (Tweet × S)) :
    writtenRows (fun _ => false) results =
      Row.header :: results.map fun r => Row.data r.1 r.2 := by
  have h : ∀ l : List (Tweet × S),
      ((l.map fun r => WEvent.writeRow (Row.data r.1 r.2)).filterMap
        (rowOfEvent (S := S))) = l.map fun r => Row.data r.1 r.2 := by
    intro l
    induction l with
    | nil => rfl
    | cons r rest ih => simp [rowOfEvent, ih]
  have ht : ∀ l : List (Tweet × S), l.takeWhile (fun _ => true) = l := by
    intro l
    induction l with
    | nil => rfl
    | cons r rest ih => simp [List.takeWhile_cons, ih]
  rw [writtenRows, writerEvents, writerConsumeRows_eq]
  simp [rowOfEvent, List.filterMap_append, h, ht]

/-- C3: with batch size 1 and a single worker (so the worker dequeues
the whole input in order and the writer dequeues the worker's outputs in
order), the rows written to the sink are the header followed by exactly
one data row per input item, with the item's individual score, in the
original input order — and they coincide with the rows written by the
sequential path `process_tweets`. -/
theorem single_worker_unit_batch_rows {S : Type} (p : String → S)
    (bp : List String → List S) (inputs : List Tweet) :
    (workerRun 1 p bp inputs).failed = false ∧
    (workerRun 1 p bp inputs).outputs = iter_predictions p inputs ∧
    writtenRows (fun _ => false) ((workerRun 1 p bp inputs).outputs) =
      Row.header :: inputs.map (fun t => Row.data t (p t.full_text)) ∧
    process_tweets p bp 1 inputs =
      some (writtenRows (fun _ => false) ((workerRun 1 p bp inputs).outputs)) := by
  rw [workerRun_single 1 p bp (by omega) inputs]
  refine ⟨rfl, rfl, ?_, ?_⟩
  · rw [writtenRows_no_fail]
    simp [iter_predictions]
  · rw [writtenRows_no_fail]
    simp [process_tweets, iter_predictions]

/-- C2: with `N > 1` workers sharing the work queue — modelled as any
delivery schedule assigning each input occurrence to exactly one worker,
order-preserving per worker — and a batched scorer consistent with the
single-item scorer, the multiset of scored results reaching the writer
under any interleaving of the workers' outputs equals the multiset
obtained by scoring each input item individually: no item is dropped and
no item is duplicated (and no worker fails). -/
theorem multiworker_multiset_preserved {S : Type} (N B : Nat) (p : String → S)
    (bp : List String → List S) (hN : 1 < N) (hbp : ∀ l, bp l = l.map p)
    (inputs : List Tweet) (sched : List (Fin N))
    (hs : sched.length = inputs.length) (res : List (Tweet × S))
    (hres : Multiset.ofList res =
      ∑ w : Fin N,
        Multiset.ofList ((workerRun B p bp (workerInputs sched inputs w)).outputs)) :
    Multiset.ofList res = Multiset.ofList (iter_predictions p inputs) ∧
    ∀ w : Fin N, (workerRun B p bp (workerInputs sched inputs w)).failed = false := by
  constructor
  · rw [hres]
    have houts : ∀ w : Fin N,
        (workerRun B p bp (workerInputs sched inputs w)).outputs =
          (workerInputs sched inputs w).map fun t => (t, p t.full_text) := fun w =>
      (workerRun_outputs_of_consistent B p bp hbp (workerInputs sched inputs w)).1
    calc (∑ w : Fin N,
            Multiset.ofList ((workerRun B p bp (workerInputs sched inputs w)).outputs))
        = ∑ w : Fin N, Multiset.ofList
            ((workerInputs sched inputs w).map fun t => (t, p t.full_text)) :=
          Finset.sum_congr rfl fun w _ => by rw [houts w]
      _ = Multiset.ofList (inputs.map fun t => (t, p t.full_text)) :=
          sum_workerInputs_map (fun t => (t, p t.full_text)) sched inputs hs
      _ = Multiset.ofList (iter_predictions p inputs) := rfl
  · intro w
    exact (workerRun_outputs_of_consistent B p bp hbp (workerInputs sched inputs w)).2

/-- A delivery schedule for 2 workers over the 7-item fixture. -/
def sampleSched : List (Fin 2) := [0, 1, 0, 0, 1, 0, 1]

/-- One interleaving of the two workers' outputs for the fixture. -/
def sampleRes : List (Tweet × Nat) :=
  [(⟨2, 2, "bb"⟩, 2), (⟨5, 5, "ee"⟩, 2), (⟨7, 7, "g"⟩, 1),
   (⟨1, 1, "a"⟩, 1), (⟨3, 3, "ccc"⟩, 3), (⟨4, 4, "d"⟩, 1), (⟨6, 6, "fff"⟩, 3)]

/-- Witness for `multiworker_multiset_preserved`: 2 workers, batch size 2,
7 items. -/
theorem multiworker_multiset_preserved_witness :
    Multiset.ofList sampleRes =
      Multiset.ofList (iter_predictions String.length sampleTweets) := by
  have h := multiworker_multiset_preserved 2 2 String.length
    (fun l => l.map String.length) (by decide) (fun l => rfl)
    sampleTweets sampleSched (by decide) sampleRes (by decide)
  exact h.1

/-- C4: in the orchestrator's action trace, each of the `N`
non-blocking worker stop signals occurs exactly once, at a position
before every worker join; every worker join occurs exactly once, before
the writer stop signal; the writer stop signal occurs exactly once,
immediately before the blocking writer join — so the writer is never
stopped before every worker has been joined — and a `stop(block=False)`
call contributes a signal but no join action. -/
theorem orchestrator_shutdown_order (inputs : List Tweet) (N i j : Nat)
    (hi : i < N) (hj : j < N) :
    (multiprocess_tweets_trace inputs N)[inputs.length + i]? =
        some (OEvent.stopWorker i) ∧
    (multiprocess_tweets_trace inputs N)[inputs.length + N + j]? =
        some (OEvent.joinWorker j) ∧
    (multiprocess_tweets_trace inputs N)[inputs.length + N + N]? =
        some OEvent.stopWriter ∧
    (multiprocess_tweets_trace inputs N)[inputs.length + N + N + 1]? =
        some OEvent.joinWriter ∧
    (multiprocess_tweets_trace inputs N).count (OEvent.stopWorker i) = 1 ∧
    (multiprocess_tweets_trace inputs N).count (OEvent.joinWorker j) = 1 ∧
    (multiprocess_tweets_trace inputs N).count OEvent.stopWriter = 1 ∧
    (multiprocess_tweets_trace inputs N).count OEvent.joinWriter = 1 ∧
    inputs.length + i < inputs.length + N + j ∧
    inputs.length + N + j < inputs.length + N + N ∧
    stop_events (OEvent.stopWorker i) (OEvent.joinWorker i) false =
      [OEvent.stopWorker i] :=
  ⟨trace_stopWorker_pos inputs N i hi, trace_joinWorker_pos inputs N j hj,
    trace_stopWriter_pos inputs N, trace_joinWriter_pos inputs N,
    trace_count_stopWorker inputs N i hi, trace_count_joinWorker inputs N j hj,
    trace_count_stopWriter inputs N, trace_count_joinWriter inputs N,
    by omega, by omega, rfl⟩

/-- Witness for `orchestrator_shutdown_order`: 7 items, 2 workers. -/
theorem orchestrator_shutdown_order_witness :
    (multiprocess_tweets_trace sampleTweets 2)[7 + 0]? =
        some (OEvent.stopWorker 0) ∧
    (multiprocess_tweets_trace sampleTweets 2)[7 + 2 + 1]? =
        some (OEvent.joinWorker 1) ∧
    (multiprocess_tweets_trace sampleTweets 2).count OEvent.stopWriter = 1 := by
  have h := orchestrator_shutdown_order sampleTweets 2 0 1 (by decide) (by decide)
  exact ⟨h.1, h.2.1, h.2.2.2.2.2.2.1⟩

theorem filterMap_rowOfEvent_dataRows {S : Type} (l : List (Tweet × S)) :
    (l.filterMap
      ((rowOfEvent (S := S)) ∘ fun r => WEvent.writeRow (Row.data r.1 r.2))) =
      l.map fun r => Row.data r.1 r.2 := by
  induction l with
  | nil => rfl
  | cons r rest ih => simp [rowOfEvent, ih]

theorem writtenRows_eq {S : Type} (fails : Row S → Bool)
    (results : List (Tweet × S)) :
    writtenRows fails results =
      Row.header ::
        ((results.takeWhile fun r => !fails (Row.data r.1 r.2)).map fun r =>
          Row.data r.1 r.2) := by
  rw [writtenRows, writerEvents, writerConsumeRows_eq]
  simp [rowOfEvent, List.filterMap_append, filterMap_rowOfEvent_dataRows]

/-- C5: on every writer run (failing appends included) the header row
is emitted exactly once, at writer start, as the first row before any
data row; with 0 items pushed through the pipeline the sink holds the
header row and 0 data rows, and a worker that dequeues nothing — for any
batch size and any scorer — makes no scoring call at all (neither the
single-item nor the batched capability) and forwards nothing. -/
theorem writer_header_once_and_empty_pipeline {S : Type} (fails : Row S → Bool)
    (results : List (Tweet × S)) (B : Nat) (p : String → S)
    (bp : List String → List S) :
    (writtenRows fails results).head? = some Row.header ∧
    (writtenRows fails results).countP isHeaderRow = 1 ∧
    writtenRows fails [] = [Row.header] ∧
    workerRun B p bp [] = ⟨[], [], false⟩ := by
  refine ⟨?_, ?_, ?_, ?_⟩
  · rw [writtenRows_eq]
    rfl
  · rw [writtenRows_eq]
    rw [List.countP_cons_of_pos _ _ (by rfl)]
    have h0 : ∀ l : List (Tweet × S),
        (l.map fun r => Row.data r.1 r.2).countP isHeaderRow = 0 := by
      intro l
      induction l with
      | nil => rfl
      | cons r rest ih => simpa [isHeaderRow] using ih
    rw [h0]
  · rw [writtenRows_eq]
    rfl
  · simp [workerRun, runLoop, exitFlush]

theorem runLoop_failed_spec {S : Type} (B : Nat) (p : String → S)
    (bp : List String → List S) (hB : 1 < B) :
    ∀ (ts b : List Tweet), (runLoop B p bp ts b).failed = true →
      batch_predict bp (runLoop B p bp ts b).batch = none ∧
      (runLoop B p bp ts b).calls.getLast? = some (runLoop B p bp ts b).batch ∧
      (runLoop B p bp ts b).batch ≠ [] := by
  intro ts
  induction ts with
  | nil => intro b h; simp [runLoop] at h
  | cons t ts ih =>
    intro b h
    by_cases hb : b.length = B
    · cases hbpb : batch_predict bp b with
      | some outs =>
        have hred : runLoop B p bp (t :: ts) b =
            ⟨b :: (runLoop B p bp ts [t]).calls,
             outs ++ (runLoop B p bp ts [t]).outputs,
             (runLoop B p bp ts [t]).failed, (runLoop B p bp ts [t]).batch⟩ := by
          simp [runLoop, hB, hb, hbpb]
        rw [hred] at h ⊢
        have hih := ih [t] h
        refine ⟨hih.1, ?_, hih.2.2⟩
        rcases hc : (runLoop B p bp ts [t]).calls with _ | ⟨c, cs⟩
        · rw [hc] at hih
          simp at hih
        · rw [hc] at hih
          show (b :: c :: cs).getLast? = _
          rw [List.getLast?_cons_cons]
          exact hih.2.1
      | none =>
        have hred : runLoop B p bp (t :: ts) b = ⟨[b], [], true, b⟩ := by
          simp [runLoop, hB, hb, hbpb]
        rw [hred]
        refine ⟨hbpb, rfl, ?_⟩
        intro hbe
        have hbe2 : b = [] := hbe
        rw [hbe2] at hb
        simp at hb
        omega
    · have hred : runLoop B p bp (t :: ts) b = runLoop B p bp ts (b ++ [t]) := by
        simp [runLoop, hB, hb]
      rw [hred] at h ⊢
      exact ih (b ++ [t]) h

/-- C6 counterexample to the claim as stated: with batch size 2 and
a batched scorer that always returns the empty list, the third item
triggers a flush of the two accumulated items; the scorer's result has
the wrong length, the `assert` fires — but on the exception path
`with self:` still runs `__exit__`, whose flush re-invokes the batched
call on the same still-uncleared accumulator.  The worker hands the
identical mismatched batch to the scoring capability twice, so the
mismatched call IS retried once (it is still fatal, and no pairs are
forwarded). -/
theorem batch_mismatch_retried_counterexample :
    (workerRun 2 String.length (fun _ => ([] : List Nat))
        [⟨1, 1, "a"⟩, ⟨2, 2, "b"⟩, ⟨3, 3, "c"⟩]).calls =
      [[⟨1, 1, "a"⟩, ⟨2, 2, "b"⟩], [⟨1, 1, "a"⟩, ⟨2, 2, "b"⟩]] ∧
    (workerRun 2 String.length (fun _ => ([] : List Nat))
        [⟨1, 1, "a"⟩, ⟨2, 2, "b"⟩, ⟨3, 3, "c"⟩]).failed = true ∧
    (workerRun 2 String.length (fun _ => ([] : List Nat))
        [⟨1, 1, "a"⟩, ⟨2, 2, "b"⟩, ⟨3, 3, "c"⟩]).outputs = [] := by
  decide

/-- C6 amended: whenever the batched scoring capability returns a
mismatched-length result, the worker fails with a fatal assertion error
and no `(item, score)` pairs from the mismatched batch are forwarded;
however, before terminating, the exit cleanup re-invokes the batched
call once more on the same still-pending accumulator (the last loop call
and the appended exit call are the same batch), which — the scorer being
a function — fails the same assertion again. -/
theorem batch_mismatch_fatal_amended {S : Type} (B : Nat) (p : String → S)
    (bp : List String → List S) (hB : 1 < B) (inputs : List Tweet)
    (hfail : (runLoop B p bp inputs []).failed = true) :
    (workerRun B p bp inputs).failed = true ∧
    (workerRun B p bp inputs).outputs = (runLoop B p bp inputs []).outputs ∧
    (workerRun B p bp inputs).calls =
      (runLoop B p bp inputs []).calls ++ [(runLoop B p bp inputs []).batch] ∧
    (runLoop B p bp inputs []).calls.getLast? =
      some ((runLoop B p bp inputs []).batch) ∧
    batch_predict bp ((runLoop B p bp inputs []).batch) = none := by
  have hspec := runLoop_failed_spec B p bp hB inputs [] hfail
  have hflush : exitFlush bp ((runLoop B p bp inputs []).batch) =
      ([(runLoop B p bp inputs []).batch], [], true) := by
    simp [exitFlush, List.isEmpty_iff, hspec.2.2, hspec.1]
  have hw : workerRun B p bp inputs =
      ⟨(runLoop B p bp inputs []).calls ++
          (exitFlush bp ((runLoop B p bp inputs []).batch)).1,
        (runLoop B p bp inputs []).outputs ++
          (exitFlush bp ((runLoop B p bp inputs []).batch)).2.1,
        (runLoop B p bp inputs []).failed ||
          (exitFlush bp ((runLoop B p bp inputs []).batch)).2.2⟩ := rfl
  rw [hw, hflush]
  exact ⟨by simp, by simp, rfl, hspec.2.1, hspec.1⟩

/-- Witness for `batch_mismatch_fatal_amended`: same concrete scenario as
the counterexample. -/
theorem batch_mismatch_fatal_amended_witness :
    (workerRun 2 String.length (fun _ => ([] : List Nat))
        [⟨1, 1, "a"⟩, ⟨2, 2, "b"⟩, ⟨3, 3, "c"⟩]).failed = true ∧
    (workerRun 2 String.length (fun _ => ([] : List Nat))
        [⟨1, 1, "a"⟩, ⟨2, 2, "b"⟩, ⟨3, 3, "c"⟩]).calls =
      (runLoop 2 String.length (fun _ => ([] : List Nat))
        [⟨1, 1, "a"⟩, ⟨2, 2, "b"⟩, ⟨3, 3, "c"⟩] []).calls ++
      [(runLoop 2 String.length (fun _ => ([] : List Nat))
        [⟨1, 1, "a"⟩, ⟨2, 2, "b"⟩, ⟨3, 3, "c"⟩] []).batch] := by
  have h := batch_mismatch_fatal_amended 2 String.length
    (fun _ => ([] : List Nat)) (by decide)
    [⟨1, 1, "a"⟩, ⟨2, 2, "b"⟩, ⟨3, 3, "c"⟩] (by decide)
  exact ⟨h.1, h.2.2.1⟩

theorem writerEvents_lifecycle {S : Type} (fails : Row S → Bool)
    (results : List (Tweet × S)) :
    (writerEvents fails results).1.countP isOpenEv = 1 ∧
    (writerEvents fails results).1.countP isCloseEv = 1 ∧
    (writerEvents fails results).1.head? = some WEvent.openSink ∧
    (writerEvents fails results).1.getLast? = some WEvent.closeSink := by
  have h0 : ∀ l : List (Tweet × S),
      ((l.map fun r => WEvent.writeRow (Row.data r.1 r.2)).countP isOpenEv = 0 ∧
       (l.map fun r => WEvent.writeRow (Row.data r.1 r.2)).countP isCloseEv = 0) := by
    intro l
    induction l with
    | nil => exact ⟨rfl, rfl⟩
    | cons r rest ih =>
      refine ⟨?_, ?_⟩ <;> simpa [isOpenEv, isCloseEv] using ih
  rw [writerEvents, writerConsumeRows_eq]
  refine ⟨?_, ?_, rfl, ?_⟩
  · simp [List.countP_cons, List.countP_append, isOpenEv, (h0 _).1]
  · simp [List.countP_cons, List.countP_append, isCloseEv, (h0 _).2]
  · rw [show WEvent.openSink :: WEvent.writeRow Row.header ::
        (((results.takeWhile fun r => !fails (Row.data r.1 r.2)).map fun r =>
          WEvent.writeRow (Row.data r.1 r.2)) ++ [WEvent.closeSink]) =
        (WEvent.openSink :: WEvent.writeRow Row.header ::
          ((results.takeWhile fun r => !fails (Row.data r.1 r.2)).map fun r =>
            WEvent.writeRow (Row.data r.1 r.2))) ++ [WEvent.closeSink] by simp]
    rw [List.getLast?_concat]

/-- C7: on every writer run the sink is opened exactly once (the
first event) and closed exactly once (the last event) — including the
failure path: when a data-row append raises after a prefix of successful
appends, exactly that prefix of data rows is written (the failure is not
caught and terminates the writer with nothing further written), and the
sink is still closed before termination. -/
theorem writer_sink_lifecycle {S : Type} (fails : Row S → Bool)
    (pre post : List (Tweet × S)) (bad : Tweet × S)
    (hpre : ∀ r ∈ pre, fails (Row.data r.1 r.2) = false)
    (hbad : fails (Row.data bad.1 bad.2) = true) :
    (∀ results : List (Tweet × S),
      (writerEvents fails results).1.countP isOpenEv = 1 ∧
      (writerEvents fails results).1.countP isCloseEv = 1 ∧
      (writerEvents fails results).1.head? = some WEvent.openSink ∧
      (writerEvents fails results).1.getLast? = some WEvent.closeSink) ∧
    (writerEvents fails (pre ++ bad :: post)).2 = true ∧
    (writerEvents fails (pre ++ bad :: post)).1 =
      WEvent.openSink :: WEvent.writeRow Row.header ::
        ((pre.map fun r => WEvent.writeRow (Row.data r.1 r.2)) ++
          [WEvent.closeSink]) := by
  refine ⟨fun results => writerEvents_lifecycle fails results, ?_, ?_⟩
  · rw [writerEvents, writerConsumeRows_fail fails pre post bad hpre hbad]
  · rw [writerEvents, writerConsumeRows_fail fails pre post bad hpre hbad]

/-- Witness for `writer_sink_lifecycle`: one successful row, then a
failing row, then one more unreached row. -/
theorem writer_sink_lifecycle_witness :
    (writerEvents (fun r => isHeaderRow r = false && r ≠ Row.data ⟨1, 1, "a"⟩ 1)
        [(⟨1, 1, "a"⟩, 1), (⟨9, 9, "x"⟩, 5), (⟨2, 2, "bb"⟩, 2)]).2 = true ∧
    (writerEvents (fun r => isHeaderRow r = false && r ≠ Row.data ⟨1, 1, "a"⟩ 1)
        [(⟨1, 1, "a"⟩, 1), (⟨9, 9, "x"⟩, 5), (⟨2, 2, "bb"⟩, 2)]).1 =
      WEvent.openSink :: WEvent.writeRow Row.header ::
        (([((⟨1, 1, "a"⟩ : Tweet), (1 : Nat))].map fun r =>
          WEvent.writeRow (Row.data r.1 r.2)) ++ [WEvent.closeSink]) := by
  have h := writer_sink_lifecycle
    (fun r => isHeaderRow r = false && r ≠ Row.data ⟨1, 1, "a"⟩ 1)
    [((⟨1, 1, "a"⟩ : Tweet), (1 : Nat))] [(⟨2, 2, "bb"⟩, 2)] (⟨9, 9, "x"⟩, 5)
    (by decide) (by decide)
  exact ⟨h.2.1, h.2.2⟩

/-- C8: `Tweet.from_status` tries the fixed ordered strategies
(`status.full_text`, then `status.extended_tweet["full_text"]`, then
`status.text`) in sequence; the first available one wins and yields an
Item carrying the status identifier, timestamp and the extracted text;
if every strategy fails the result is the fatal `AssertionError`
(embedded as `none`) — never an Item with missing text, and the record
is never silently skipped. -/
theorem text_extraction_cascade (s : Status) :
    (∀ txt, s.full_text = some txt →
      from_status s = some ⟨s.id, s.created_at, txt⟩) ∧
    (s.full_text = none → ∀ txt, s.extended_tweet_full_text = some txt →
      from_status s = some ⟨s.id, s.created_at, txt⟩) ∧
    (s.full_text = none → s.extended_tweet_full_text = none →
      ∀ txt, s.text = some txt → from_status s = some ⟨s.id, s.created_at, txt⟩) ∧
    (s.full_text = none → s.extended_tweet_full_text = none → s.text = none →
      from_status s = none) := by
  refine ⟨?_, ?_, ?_, ?_⟩
  · intro txt h
    simp [from_status, status_text_getters, from_status_go, h]
  · intro h1 txt h2
    simp [from_status, status_text_getters, from_status_go, h1, h2]
  · intro h1 h2 txt h3
    simp [from_status, status_text_getters, from_status_go, h1, h2, h3]
  · intro h1 h2 h3
    simp [from_status, status_text_getters, from_status_go, h1, h2, h3]

/-- Witness for `text_extraction_cascade`: the first strategy fails, the
second succeeds. -/
theorem text_extraction_cascade_witness :
    from_status ⟨5, 6, none, some "hello", some "bye"⟩ = some ⟨5, 6, "hello"⟩ := by
  have h := text_extraction_cascade ⟨5, 6, none, some "hello", some "bye"⟩
  exact h.2.1 rfl "hello" rfl

/-- C9: `stop(block=True)` on a worker that has already fully drained
and terminated returns without hanging and without raising: the enqueue
of one additional end-of-stream marker on the unbounded input queue
succeeds, and the join on the already-exited process returns
immediately. -/
theorem stop_after_drain_returns (w : WorkerHandle) (h : w.terminated = true) :
    stop_handle w true = some ⟨w.queue ++ [none], true⟩ ∧
    (stop_handle w true).isSome = true := by
  have heq : stop_handle w true = some ⟨w.queue ++ [none], true⟩ := by
    simp [stop_handle, join_handle, queue_put, h]
  exact ⟨heq, by rw [heq]; rfl⟩

/-- Witness for `stop_after_drain_returns`. -/
theorem stop_after_drain_returns_witness :
    stop_handle ⟨[], true⟩ true = some ⟨[none], true⟩ := by
  have h := stop_after_drain_returns ⟨[], true⟩ rfl
  exact h.1
